import Mathlib

/-!
Verification development for the choice-IR core of a property-based
testing engine (Hypothesis).  The repository snapshot under verification
carries the tests of the conjecture IR (`tests/conjecture/test_ir.py`,
`tests/cover/test_one_of.py`) together with `hypothesis/_settings.py`;
the conjecture implementation itself (`internal/conjecture/data.py`,
`internal/conjecture/datatree.py`, `internal/intervalsets.py`, the
shrinker) is not part of the snapshot, so those components are modelled
from the specification document and the claims are settled against that
model.  `_settings.py` is present and is embedded directly from source.
-/

namespace Hypothesis

/-! ## Interval sets

Modelled from the spec: `internal/intervalsets.py` is absent from the
snapshot.  "Interval Set — a disjoint union of closed integer ranges
describing allowed code points for text generation." (spec §2).  An
interval `(lo, hi)` stands for the closed codepoint range `[lo, hi]`.
-/

structure IntervalSet where
  intervals : List (Nat × Nat)
deriving DecidableEq, Repr

namespace IntervalSet

/-- The allowed codepoints, listed range by range. -/
def toList (s : IntervalSet) : List Nat :=
  s.intervals.flatMap (fun p => List.range' p.1 (p.2 + 1 - p.1))

/-- Cardinality of the allowed-codepoint set. -/
def size (s : IntervalSet) : Nat :=
  s.toList.length

/-- Membership test for a codepoint. -/
def contains (s : IntervalSet) (c : Nat) : Bool :=
  s.intervals.any (fun p => decide (p.1 ≤ c) && decide (c ≤ p.2))

/-- Well-formedness: the ranges are nonempty and describe a disjoint
union, so listing them produces no duplicate codepoint (spec §2:
"a disjoint union of closed integer ranges"). -/
def WF (s : IntervalSet) : Prop :=
  s.toList.Nodup

instance (s : IntervalSet) : Decidable s.WF := by
  unfold WF; infer_instance

end IntervalSet

/-! ## Choice types, constraints, values, nodes

Modelled from the spec: `internal/conjecture/data.py` is absent from the
snapshot.  "ChoiceType: closed variant {boolean, integer, float, string,
bytes}"; "Constraints: immutable, per-type record of generation
parameters (integer: optional min/max, optional per-value weights, a
shrink target value; float: min, max, allow-NaN flag, smallest nonzero
magnitude; string: min size, optional max size, allowed interval set;
bytes: fixed size; boolean: true-probability)"; "ChoiceNode: {type,
constraints, value, was_forced}" (spec §3).  Probabilities, weights and
float bounds are modelled as rationals; text as lists of codepoints;
byte strings as lists of naturals.
-/

inductive ChoiceType where
  | boolean | integer | float | string | bytes
deriving DecidableEq, Repr

/-- Per-type constraint record, a closed tagged union (spec §9:
"closed tagged-union per ChoiceType, each carrying its own constraint
record"). -/
inductive Constraints where
  | boolean (p : ℚ)
  | integer (min_value max_value : Option ℤ) (weights : Option (List ℚ))
      (shrink_towards : ℤ)
  | float (min_value max_value : ℚ) (allow_nan : Bool)
      (smallest_nonzero_magnitude : ℚ)
  | string (min_size : Nat) (max_size : Option Nat) (intervals : IntervalSet)
  | bytes (size : Nat)
deriving DecidableEq, Repr

/-- The type tag a constraint record carries. -/
def Constraints.ctype : Constraints → ChoiceType
  | .boolean _ => .boolean
  | .integer _ _ _ _ => .integer
  | .float _ _ _ _ => .float
  | .string _ _ _ => .string
  | .bytes _ => .bytes

inductive ChoiceValue where
  | boolean (b : Bool)
  | integer (n : ℤ)
  | float (q : ℚ)
  | string (cs : List Nat)
  | bytes (bs : List Nat)
deriving DecidableEq, Repr

/-- The weight assigned to the i-th value of a bounded integer range;
values outside an explicit weight list default to a nonzero weight. -/
def weightAt (weights : Option (List ℚ)) (i : Nat) : ℚ :=
  match weights with
  | none => 1
  | some ws => ws.getD i 1

/-- Modelled from the spec: constraint satisfaction for a drawn value
("every ChoiceNode value satisfies its own constraints", spec §3;
boolean domains of true-probability exactly 0 or 1 admit a single
outcome, spec §4.1). -/
def satisfies : Constraints → ChoiceValue → Bool
  | .boolean p, .boolean b =>
      if p = 0 then !b else if p = 1 then b else true
  | .integer mn mx _ _, .integer n =>
      (match mn with | none => true | some lo => decide (lo ≤ n)) &&
      (match mx with | none => true | some hi => decide (n ≤ hi))
  | .float mn mx _ smag, .float q =>
      decide (mn ≤ q) && decide (q ≤ mx) &&
      (decide (q = 0) || decide (smag ≤ |q|))
  | .string mS MS iv, .string cs =>
      decide (mS ≤ cs.length) &&
      (match MS with | none => true | some M => decide (cs.length ≤ M)) &&
      cs.all iv.contains
  | .bytes sz, .bytes bs => decide (bs.length = sz)
  | _, _ => false

/-- One recorded choice (spec §3). -/
structure ChoiceNode where
  constraints : Constraints
  value : ChoiceValue
  was_forced : Bool
deriving DecidableEq, Repr

/-- The type tag of a recorded node. -/
def ChoiceNode.ctype (n : ChoiceNode) : ChoiceType :=
  n.constraints.ctype

/-! ## Choice combinatorics

Modelled from the spec: `internal/conjecture/datatree.py` is absent from
the snapshot.  "`compute_max_children(type, constraints)` -> non-negative
integer, exact count, or a defined effectively infinite sentinel above a
fixed large cap" with the per-type rules of spec §4.1; the concrete cap
value is fixed consistently with the expectations in
`tests/conjecture/test_ir.py`.
-/

def MAX_CHILDREN_EFFECTIVELY_INFINITE : Nat := 100000

/-- Sum of `c ^ k` for `k` ranging over the closed size interval
`[m, M]` (empty when `m > M`). -/
def stringSizeSum (c m M : Nat) : Nat :=
  ((List.range' m (M + 1 - m)).map (fun k => c ^ k)).sum

/-- Modelled from the spec (§4.1): exact count of distinct satisfying
values per choice type, or the effectively-infinite sentinel.
- boolean: 1 distinct outcome when the true-probability is exactly 0 or
  1, else 2;
- integer: count of integers in the closed bound range, values with zero
  weight excluded; an absent bound means unbounded, hence the sentinel;
- float: capped as infinite except when the bounds collapse to a single
  value;
- string: sum over sizes in `[min, max]` of `size-of-interval-set ^ k`,
  the sentinel when the max size is absent or the sum reaches the cap;
- bytes: `256 ^ size`. -/
def compute_max_children : Constraints → Nat
  | .boolean p => if p = 0 ∨ p = 1 then 1 else 2
  | .integer mn mx ws _ =>
      match mn, mx with
      | some lo, some hi =>
          let n : Nat := (hi - lo + 1).toNat
          match ws with
          | none => n
          | some l => (List.range n).countP (fun i => decide (l.getD i 1 ≠ 0))
      | _, _ => MAX_CHILDREN_EFFECTIVELY_INFINITE
  | .float mn mx _ _ =>
      if mn = mx then 1 else MAX_CHILDREN_EFFECTIVELY_INFINITE
  | .string mS MS iv =>
      match MS with
      | none => MAX_CHILDREN_EFFECTIVELY_INFINITE
      | some M =>
          let s := stringSizeSum iv.size mS M
          if MAX_CHILDREN_EFFECTIVELY_INFINITE ≤ s then
            MAX_CHILDREN_EFFECTIVELY_INFINITE
          else s
  | .bytes sz => 256 ^ sz

/-- All length-`k` tuples over an alphabet, heads varying slowest. -/
def tuples (alpha : List Nat) : Nat → List (List Nat)
  | 0 => [[]]
  | k + 1 => alpha.flatMap (fun a => (tuples alpha k).map (fun t => a :: t))

/-- Modelled from the spec (§4.1): "`all_children(type, constraints)` ->
lazy, finite, restartable sequence of values; when the count is below
the infinite cap it must enumerate exactly that many values".  The spec
fixes the enumeration only below the effectively-infinite cap; in the
branches that the cap makes unreachable the model enumerates nothing. -/
def all_children : Constraints → List ChoiceValue
  | .boolean p =>
      if p = 0 then [.boolean false]
      else if p = 1 then [.boolean true]
      else [.boolean false, .boolean true]
  | .integer mn mx ws _ =>
      match mn, mx with
      | some lo, some hi =>
          let n : Nat := (hi - lo + 1).toNat
          ((List.range n).filter (fun i => decide (weightAt ws i ≠ 0))).map
            (fun (i : Nat) => .integer (lo + (i : ℤ)))
      | _, _ => []
  | .float mn mx _ _ => if mn = mx then [.float mn] else []
  | .string mS MS iv =>
      match MS with
      | none => []
      | some M =>
          (List.range' mS (M + 1 - mS)).flatMap
            (fun k => (tuples iv.toList k).map (fun t => .string t))
  | .bytes sz => (tuples (List.range 256) sz).map (fun t => .bytes t)

/-- Domain well-formedness needed for distinct enumeration: the string
interval set is a genuine disjoint union of ranges.  All other
constraint families need nothing beyond their record. -/
def Constraints.WF : Constraints → Prop
  | .string _ _ iv => iv.WF
  | _ => True

/-! ## Choice sequence recorder

Modelled from the spec: `internal/conjecture/data.py` is absent from the
snapshot.  Spec §4.2: one draw operation per type, each taking
constraints plus an optional forced value; a forced draw returns its
value unconditionally and appends a ChoiceNode with `was_forced = true`;
a non-forced draw obtains a satisfying value from the external
entropy/replay provider (spec §6 requires the provider to supply a value
satisfying type+constraints) and appends a node with
`was_forced = false`; each call appends exactly one node in call order;
draw-after-freeze and a forced value violating its constraints are fatal
usage errors (spec §7).  The provider is modelled by passing in the
value it supplies.
-/

inductive DrawError where
  | frozen
  | invalidValue
deriving DecidableEq, Repr

/-- Recorder state: the node sequence in call order plus the one-way
frozen flag (spec §3, §4.2). -/
structure ConjectureData where
  nodes : List ChoiceNode
  frozen : Bool
deriving DecidableEq, Repr

/-- A fresh, empty, unfrozen recorder (one per trial, spec §3). -/
def fresh_data : ConjectureData := { nodes := [], frozen := false }

/-- One draw call: `value` is the forced value when `forced`, and the
provider-supplied value otherwise.  Returns the updated recorder and the
value the draw returns to its caller. -/
def draw (d : ConjectureData) (c : Constraints) (value : ChoiceValue)
    (forced : Bool) : Except DrawError (ConjectureData × ChoiceValue) :=
  if d.frozen then .error .frozen
  else if satisfies c value then
    .ok ({ d with
            nodes := d.nodes ++ [⟨c, value, forced⟩] }, value)
  else .error .invalidValue

/-- The string draw specialised from the generic draw call
(spec §4.2 lists one operation per type). -/
def draw_string (d : ConjectureData) (intervals : IntervalSet)
    (min_size : Nat) (max_size : Option Nat) (value : List Nat)
    (forced : Bool) : Except DrawError (ConjectureData × ChoiceValue) :=
  draw d (.string min_size max_size intervals) (.string value) forced

/-- Freezing: one-way transition to immutable; the recorded node
sequence is kept as is (spec §4.2). -/
def freeze (d : ConjectureData) : ConjectureData :=
  { d with frozen := true }

/-- Run a whole trial of forced draws from a given recorder state,
collecting the values the draws return. -/
def runForced (d : ConjectureData) :
    List (Constraints × ChoiceValue) →
      Except DrawError (ConjectureData × List ChoiceValue)
  | [] => .ok (d, [])
  | (c, v) :: rest =>
      match draw d c v true with
      | .error e => .error e
      | .ok (d2, out) =>
          match runForced d2 rest with
          | .error e => .error e
          | .ok (d3, outs) => .ok (d3, out :: outs)

/-! ## Shrinker

Modelled from the spec: the shrinker module is absent from the snapshot.
Spec §4.4: ordering by shrink key, lexicographic, smaller preferred —
total node count, then per-node size in encounter order (integer:
distance from its shrink target; string/bytes: length then content
order; float: magnitude then sign; boolean: false before true); the
algorithm repeatedly applies transformations, re-tests through the
oracle, accepts only strict improvements by the shrink key, iterates to
a fixed point, and is bounded by an external iteration budget; it always
terminates with at least the original sequence as a fallback answer.
-/

/-- Oracle verdicts (spec §4.4, §6). -/
inductive Outcome where
  | overrun | valid | invalid | interesting
deriving DecidableEq, Repr

/-- Per-node size (spec §4.4), encoded as a lexicographically compared
list of rationals. -/
def nodeKey (nd : ChoiceNode) : List ℚ :=
  match nd.value with
  | .boolean b => [if b then 1 else 0]
  | .integer n =>
      match nd.constraints with
      | .integer _ _ _ t => [((n - t).natAbs : ℚ)]
      | _ => [(n.natAbs : ℚ)]
  | .float q => [|q|, if q < 0 then 1 else 0]
  | .string cs => ((cs.length : ℚ)) :: cs.map (fun c => (c : ℚ))
  | .bytes bs => ((bs.length : ℚ)) :: bs.map (fun b => (b : ℚ))

/-- The shrink key: total node count first, then the per-node sizes in
encounter order (spec §4.4). -/
def shrinkKey (ns : List ChoiceNode) : Lex (Nat × List (List ℚ)) :=
  toLex (ns.length, ns.map nodeKey)

/-- Pick the first candidate the oracle classifies interesting that is a
strict improvement by the shrink key (spec §4.4: "accept only strict
improvements by the shrink key"). -/
def acceptCandidate (test : List ChoiceNode → Outcome)
    (current : List ChoiceNode) (candidates : List (List ChoiceNode)) :
    Option (List ChoiceNode) :=
  candidates.find? (fun cand =>
    decide (test cand = .interesting) &&
    decide (shrinkKey cand < shrinkKey current))

/-- The shrink loop: at each step gather the candidates every
transformation in the battery proposes for the current sequence, move to
the first accepted strict improvement, and stop at a fixed point or when
the external iteration budget runs out (spec §4.4). -/
def shrinkLoop (test : List ChoiceNode → Outcome)
    (passes : List (List ChoiceNode → List (List ChoiceNode))) :
    Nat → List ChoiceNode → List ChoiceNode
  | 0, current => current
  | budget + 1, current =>
      match acceptCandidate test current
          (passes.flatMap (fun p => p current)) with
      | none => current
      | some next => shrinkLoop test passes budget next

/-- Entry point: minimize one interesting sequence under the oracle,
within an external iteration budget (spec §4.4). -/
def shrink (test : List ChoiceNode → Outcome)
    (passes : List (List ChoiceNode → List (List ChoiceNode)))
    (budget : Nat) (input : List ChoiceNode) : List ChoiceNode :=
  shrinkLoop test passes budget input

/-! ## Settings immutability

Embedded from `hypothesis/_settings.py` (present in the snapshot).
`settings.__setattr__` raises `AttributeError("settings objects are
immutable")` when the attribute name does not start with an underscore
and `self._in_definition` is false, otherwise it delegates to the
ordinary attribute store; `settingsMeta.__setattr__` raises for the name
`default` and for any other name not starting with an underscore, and
otherwise delegates.  An attribute store is modelled as an association
list; a raise is modelled as an `Except.error`, which leaves the
original object untouched.
-/

inductive AttributeError where
  | cannotAssignDefault
  | classImmutable
  | instanceImmutable
deriving DecidableEq, Repr

/-- The attribute state of one `settings` instance: its attribute store
plus the `_in_definition` flag set by `__init__` (true only while the
constructor body runs). -/
structure SettingsObject (α : Type) where
  in_definition : Bool
  attrs : List (String × α)
deriving DecidableEq, Repr

/-- The attribute state of the `settings` class object itself. -/
structure SettingsClass (α : Type) where
  attrs : List (String × α)
deriving DecidableEq, Repr

/-- Python's `name.startswith("_")`: the first character is an
underscore (false for the empty name). -/
def startsWithUnderscore (name : String) : Bool :=
  decide (name.data.headD ' ' = '_') && decide (name.data ≠ [])

/-- `settings.__setattr__` (`_settings.py` lines 776-779): raise unless
the name is private or the object is still being defined; on success the
attribute is stored. -/
def settingsSetattr {α : Type} (s : SettingsObject α) (name : String)
    (value : α) : Except AttributeError (SettingsObject α) :=
  if !startsWithUnderscore name && !s.in_definition then
    .error .instanceImmutable
  else
    .ok { s with attrs := (name, value) :: s.attrs }

/-- `settingsMeta.__setattr__` (`_settings.py` lines 356-369): assigning
`settings.default` raises, any other public class attribute raises, and
private names are stored. -/
def settingsMetaSetattr {α : Type} (cls : SettingsClass α) (name : String)
    (value : α) : Except AttributeError (SettingsClass α) :=
  if name.data = "default".data then
    .error .cannotAssignDefault
  else if !startsWithUnderscore name then
    .error .classImmutable
  else
    .ok { cls with attrs := (name, value) :: cls.attrs }

/-! ## Helper lemmas -/

theorem countP_range_eq_card_filter (n : Nat) (P : Nat → Bool) :
    (List.range n).countP P =
      ((Finset.range n).filter (fun i => P i = true)).card := by
  rw [Finset.card_filter, List.countP_eq_length_filter]
  induction n with
  | zero => simp
  | succ k ih =>
      rw [Finset.sum_range_succ, List.range_succ, List.filter_append, ← ih]
      cases h : P k <;> simp [List.filter, h]

theorem stringSizeSum_eq_sum_Icc (c m M : Nat) :
    stringSizeSum c m M = ∑ k in Finset.Icc m M, c ^ k := by
  rw [stringSizeSum, ← Nat.Ico_succ_right, Finset.sum_Ico_eq_sum_range,
    List.range'_eq_map_range, List.map_map]
  rfl

theorem tuples_length (alpha : List Nat) :
    ∀ k, (tuples alpha k).length = alpha.length ^ k := by
  intro k
  induction k with
  | zero => rfl
  | succ n ih =>
      rw [tuples, List.length_flatMap]
      simp only [Function.comp_def, List.length_map, ih]
      rw [List.map_const', List.sum_replicate, smul_eq_mul, pow_succ,
        Nat.mul_comm]

theorem length_of_mem_tuples (alpha : List Nat) :
    ∀ k t, t ∈ tuples alpha k → t.length = k := by
  intro k
  induction k with
  | zero =>
      intro t ht
      rw [tuples, List.mem_singleton] at ht
      simp [ht]
  | succ n ih =>
      intro t ht
      rw [tuples, List.mem_flatMap] at ht
      obtain ⟨a, _, ht⟩ := ht
      rw [List.mem_map] at ht
      obtain ⟨t0, ht0, rfl⟩ := ht
      simp [ih t0 ht0]

theorem tuples_nodup (alpha : List Nat) (halpha : alpha.Nodup) :
    ∀ k, (tuples alpha k).Nodup := by
  intro k
  induction k with
  | zero => simp [tuples]
  | succ n ih =>
      rw [tuples, List.nodup_flatMap]
      constructor
      · intro a _
        exact ih.map (fun t1 t2 h => by injection h)
      · refine List.Pairwise.imp ?_ halpha
        intro a b hab
        intro x hx1 hx2
        rw [List.mem_map] at hx1 hx2
        obtain ⟨t1, _, rfl⟩ := hx1
        obtain ⟨t2, _, h⟩ := hx2
        injection h with h1 _
        exact hab h1.symm

theorem runForced_ok (draws : List (Constraints × ChoiceValue)) :
    ∀ d : ConjectureData, d.frozen = false →
      (∀ p ∈ draws, satisfies p.1 p.2 = true) →
      runForced d draws =
        .ok ({ nodes := d.nodes ++
                draws.map (fun p => ChoiceNode.mk p.1 p.2 true),
               frozen := false },
             draws.map (fun p => p.2)) := by
  induction draws with
  | nil =>
      intro d hd _
      cases d with
      | mk ns fr =>
          cases hd
          simp [runForced]
  | cons head rest ih =>
      intro d hd hsat
      obtain ⟨c, v⟩ := head
      have hs : satisfies c v = true := hsat (c, v) (List.mem_cons_self _ _)
      have hdraw : draw d c v true =
          .ok ({ d with nodes := d.nodes ++ [⟨c, v, true⟩] }, v) := by
        rw [draw, if_neg (by simp [hd]), if_pos hs]
      have hrest := ih { d with nodes := d.nodes ++ [⟨c, v, true⟩] } hd
        (fun p hp => hsat p (List.mem_cons_of_mem _ hp))
      rw [runForced, hdraw]
      simp [hrest, List.append_assoc]

/-- The satisfying values of a single-codepoint interval set with equal
size bounds form a one-element domain. -/
theorem satisfies_single_interval (ch n : Nat) (cs : List Nat)
    (hsat : satisfies (.string n (some n) ⟨[(ch, ch)]⟩) (.string cs) = true) :
    cs = List.replicate n ch := by
  simp only [satisfies, IntervalSet.contains, List.all_eq_true, List.any_cons,
    List.any_nil, Bool.and_eq_true, Bool.or_eq_true, decide_eq_true_eq] at hsat
  obtain ⟨⟨hlen1, hlen2⟩, hmem⟩ := hsat
  refine List.eq_replicate_iff.2 ⟨by omega, ?_⟩
  intro b hb
  have := hmem b hb
  rcases this with ⟨h1, h2⟩ | h
  · omega
  · cases h

/-! ## Claims -/

/-- C1: for every choice type and well-formed constraint set, if
`compute_max_children` is strictly below the effectively-infinite
sentinel then `all_children` enumerates exactly that many distinct
values (the enumeration has that length and no duplicates). -/
theorem claim_C1 (c : Constraints) (hwf : c.WF)
    (hfin : compute_max_children c < MAX_CHILDREN_EFFECTIVELY_INFINITE) :
    (all_children c).length = compute_max_children c ∧
    (all_children c).Nodup := by
  cases c with
  | boolean p =>
      by_cases h0 : p = 0
      · subst h0
        simp [all_children, compute_max_children]
      · by_cases h1 : p = 1
        · subst h1
          simp [all_children, compute_max_children]
        · have hor : ¬(p = 0 ∨ p = 1) := by tauto
          refine ⟨?_, ?_⟩
          · simp [all_children, compute_max_children, h0, h1, hor]
          · simp [all_children, h0, h1]
  | integer mn mx ws t =>
      cases mn with
      | none =>
          exfalso
          simp [compute_max_children] at hfin
      | some lo =>
          cases mx with
          | none =>
              exfalso
              simp [compute_max_children] at hfin
          | some hi =>
              have hall : all_children (.integer (some lo) (some hi) ws t) =
                  ((List.range (hi - lo + 1).toNat).filter
                    (fun i => decide (weightAt ws i ≠ 0))).map
                    (fun (i : Nat) => ChoiceValue.integer (lo + (i : ℤ))) := rfl
              constructor
              · rw [hall, List.length_map, ← List.countP_eq_length_filter]
                cases ws with
                | none =>
                    rw [compute_max_children]
                    simp [weightAt]
                | some l =>
                    rw [compute_max_children]
                    simp [weightAt]
              · rw [hall]
                refine List.Nodup.map ?_ ((List.nodup_range _).filter _)
                intro a b hab
                injection hab with h
                omega
  | float mn mx an sm =>
      by_cases h : mn = mx
      · subst h
        simp [all_children, compute_max_children]
      · exfalso
        simp [compute_max_children, h] at hfin
  | string mS MS iv =>
      cases MS with
      | none =>
          exfalso
          simp [compute_max_children] at hfin
      | some M =>
          have hcap : ¬(MAX_CHILDREN_EFFECTIVELY_INFINITE ≤
              stringSizeSum iv.size mS M) := by
            intro hle
            rw [compute_max_children, if_pos hle] at hfin
            exact absurd hfin (lt_irrefl _)
          have hnodup : iv.toList.Nodup := hwf
          constructor
          · rw [all_children, List.length_flatMap, compute_max_children,
              if_neg hcap, stringSizeSum]
            congr 1
            apply List.map_congr_left
            intro k _
            simp [Function.comp_def, List.length_map, tuples_length]
            rfl
          · rw [all_children, List.nodup_flatMap]
            constructor
            · intro k _
              exact (tuples_nodup iv.toList hnodup k).map
                (fun t1 t2 h => by injection h)
            · refine List.Pairwise.imp ?_ (List.pairwise_lt_range' mS _)
              intro a b hab
              intro x hx1 hx2
              rw [List.mem_map] at hx1 hx2
              obtain ⟨t1, ht1, rfl⟩ := hx1
              obtain ⟨t2, ht2, h⟩ := hx2
              injection h with h
              have l1 := length_of_mem_tuples iv.toList a t1 ht1
              have l2 := length_of_mem_tuples iv.toList b t2 ht2
              rw [h] at l2
              omega
  | bytes sz =>
      constructor
      · rw [all_children, List.length_map, tuples_length,
          List.length_range, compute_max_children]
      · exact (tuples_nodup _ (List.nodup_range _) sz).map
          (fun t1 t2 h => by injection h)

/-- C1 witness: the boolean constraint with `p = 1/2` has two children,
enumerated as two distinct values. -/
theorem claim_C1_witness :
    (Constraints.boolean (mkRat 1 2)).WF ∧
    compute_max_children (.boolean (mkRat 1 2)) <
      MAX_CHILDREN_EFFECTIVELY_INFINITE ∧
    ((all_children (.boolean (mkRat 1 2))).length =
        compute_max_children (.boolean (mkRat 1 2)) ∧
      (all_children (.boolean (mkRat 1 2))).Nodup) :=
  ⟨trivial, by decide,
    claim_C1 (.boolean (mkRat 1 2)) trivial (by decide)⟩

/-- C2: running any sequence of forced draws whose values satisfy their
constraints succeeds, returns each forced value, appends exactly one
`was_forced = true` ChoiceNode per call carrying that type's
constraints and value, in call order; freezing keeps that node sequence;
and replaying the frozen sequence's recorded values as forced draws
reproduces identical ChoiceNodes (constraints, value, forced flag) in
the same order. -/
theorem claim_C2 (draws : List (Constraints × ChoiceValue))
    (hsat : ∀ p ∈ draws, satisfies p.1 p.2 = true) :
    ∃ d : ConjectureData,
      runForced fresh_data draws =
        .ok (d, draws.map (fun p => p.2)) ∧
      d.nodes = draws.map (fun p => ChoiceNode.mk p.1 p.2 true) ∧
      (freeze d).nodes = d.nodes ∧
      runForced fresh_data
          ((freeze d).nodes.map (fun nd => (nd.constraints, nd.value))) =
        .ok (d, draws.map (fun p => p.2)) := by
  have h1 := runForced_ok draws fresh_data rfl hsat
  refine ⟨_, h1, by simp [fresh_data], rfl, ?_⟩
  have hlist :
      ((freeze (ConjectureData.mk
          (fresh_data.nodes ++ draws.map (fun p => ChoiceNode.mk p.1 p.2 true))
          false)).nodes.map
        (fun nd => (nd.constraints, nd.value))) = draws := by
    simp [freeze, fresh_data, List.map_map, Function.comp_def]
  rw [hlist, h1]

/-- C2 witness: a two-draw trial (a forced boolean and a forced bounded
integer). -/
theorem claim_C2_witness :
    (∀ p ∈ ([(Constraints.boolean 1, ChoiceValue.boolean true),
              (Constraints.integer (some 0) (some 100) none 0,
                ChoiceValue.integer 50)] :
        List (Constraints × ChoiceValue)), satisfies p.1 p.2 = true) ∧
    (∃ d : ConjectureData,
      runForced fresh_data
          [(Constraints.boolean 1, ChoiceValue.boolean true),
            (Constraints.integer (some 0) (some 100) none 0,
              ChoiceValue.integer 50)] =
        .ok (d, [ChoiceValue.boolean true, ChoiceValue.integer 50]) ∧
      d.nodes = [ChoiceNode.mk (.boolean 1) (.boolean true) true,
        ChoiceNode.mk (.integer (some 0) (some 100) none 0) (.integer 50) true] ∧
      (freeze d).nodes = d.nodes ∧
      runForced fresh_data
          ((freeze d).nodes.map (fun nd => (nd.constraints, nd.value))) =
        .ok (d, [ChoiceValue.boolean true, ChoiceValue.integer 50])) :=
  ⟨by decide, claim_C2 _ (by decide)⟩

/-- C8: a non-forced string draw over an interval set holding exactly
one codepoint, with equal min and max sizes, returns that codepoint
repeated `n` times whatever satisfying value the entropy source
supplies: the domain has a single element, so the result is independent
of the entropy consumed. -/
theorem claim_C8 (ch n : Nat) (d : ConjectureData) (v : List Nat)
    (hfr : d.frozen = false)
    (hsat : satisfies (.string n (some n) ⟨[(ch, ch)]⟩) (.string v) = true) :
    draw_string d ⟨[(ch, ch)]⟩ n (some n) v false =
      .ok ({ d with nodes := d.nodes ++
              [⟨.string n (some n) ⟨[(ch, ch)]⟩,
                .string (List.replicate n ch), false⟩] },
           .string (List.replicate n ch)) := by
  have hv := satisfies_single_interval ch n v hsat
  subst hv
  rw [draw_string, draw, if_neg (by simp [hfr]), if_pos hsat]

/-- C8 witness: the single-character alphabet `{97}` with size bounds
`3 = 3` forces the value `[97, 97, 97]`. -/
theorem claim_C8_witness :
    fresh_data.frozen = false ∧
    satisfies (.string 3 (some 3) ⟨[(97, 97)]⟩) (.string [97, 97, 97]) = true ∧
    draw_string fresh_data ⟨[(97, 97)]⟩ 3 (some 3) [97, 97, 97] false =
      .ok ({ fresh_data with nodes := fresh_data.nodes ++
              [⟨.string 3 (some 3) ⟨[(97, 97)]⟩,
                .string (List.replicate 3 97), false⟩] },
           .string (List.replicate 3 97)) :=
  ⟨rfl, by decide, claim_C8 97 3 fresh_data [97, 97, 97] rfl (by decide)⟩

theorem shrinkLoop_invariant (test : List ChoiceNode → Outcome)
    (passes : List (List ChoiceNode → List (List ChoiceNode))) :
    ∀ (budget : Nat) (cur : List ChoiceNode),
      test cur = .interesting →
      test (shrinkLoop test passes budget cur) = .interesting ∧
      shrinkKey (shrinkLoop test passes budget cur) ≤ shrinkKey cur := by
  intro budget
  induction budget with
  | zero => exact fun cur h => ⟨h, le_refl _⟩
  | succ n ih =>
      intro cur hcur
      rw [shrinkLoop]
      cases hfind : acceptCandidate test cur
          (passes.flatMap (fun p => p cur)) with
      | none => exact ⟨hcur, le_refl _⟩
      | some next =>
          have hp := List.find?_some hfind
          rw [Bool.and_eq_true, decide_eq_true_eq, decide_eq_true_eq] at hp
          have hnext := ih next hp.1
          exact ⟨hnext.1, le_trans hnext.2 (le_of_lt hp.2)⟩

/-- C3: for every frozen interesting input sequence, every oracle and
every transformation battery, the shrinker terminates within its
external iteration budget and the sequence it returns is still
classified interesting by the oracle and is not larger than the input
under the shrink key (total node count, then per-node size in encounter
order); the original sequence is the worst-case answer. -/
theorem claim_C3 (test : List ChoiceNode → Outcome)
    (passes : List (List ChoiceNode → List (List ChoiceNode)))
    (budget : Nat) (input : List ChoiceNode)
    (hin : test input = .interesting) :
    test (shrink test passes budget input) = .interesting ∧
    shrinkKey (shrink test passes budget input) ≤ shrinkKey input :=
  shrinkLoop_invariant test passes budget input hin

/-- C3 witness: a span-deletion pass on a one-node interesting input
under an always-interesting oracle. -/
theorem claim_C3_witness :
    (fun _ : List ChoiceNode => Outcome.interesting)
        [ChoiceNode.mk (.boolean 1) (.boolean true) true] = .interesting ∧
    ((fun _ : List ChoiceNode => Outcome.interesting)
        (shrink (fun _ => Outcome.interesting)
          [fun _ => [[]]] 5
          [ChoiceNode.mk (.boolean 1) (.boolean true) true]) = .interesting ∧
      shrinkKey (shrink (fun _ => Outcome.interesting)
          [fun _ => [[]]] 5
          [ChoiceNode.mk (.boolean 1) (.boolean true) true]) ≤
        shrinkKey [ChoiceNode.mk (.boolean 1) (.boolean true) true]) :=
  ⟨rfl, claim_C3 (fun _ => Outcome.interesting) [fun _ => [[]]] 5
    [ChoiceNode.mk (.boolean 1) (.boolean true) true] rfl⟩

/-- C4: for every choice type and every constraint set,
`compute_max_children` returns an integer that is greater than or equal
to zero (in particular for integer bounds of magnitude far beyond the
128-bit unbounded cap, such as `2 ^ 200`, which the `Int`-valued bound
arithmetic of the model handles exactly). -/
theorem claim_C4 (c : Constraints) : (0 : ℤ) ≤ (compute_max_children c : ℤ) :=
  Int.natCast_nonneg _

/-- C6: for boolean constraints with true-probability `p`,
`compute_max_children` equals 1 exactly when `p` is 0 or 1, and equals 2
for every `p` strictly between 0 and 1. -/
theorem claim_C6 (p : ℚ) (hp0 : 0 ≤ p) (hp1 : p ≤ 1) :
    (compute_max_children (.boolean p) = 1 ↔ (p = 0 ∨ p = 1)) ∧
    (0 < p → p < 1 → compute_max_children (.boolean p) = 2) := by
  by_cases h : p = 0 ∨ p = 1
  · refine ⟨by simp [compute_max_children, h], ?_⟩
    intro h0 h1
    rcases h with rfl | rfl
    · exact absurd h0 (lt_irrefl 0)
    · exact absurd h1 (lt_irrefl 1)
  · exact ⟨by simp [compute_max_children, h], fun _ _ => by
      simp [compute_max_children, h]⟩

/-- C6 witness at `p = 1/2`. -/
theorem claim_C6_witness :
    (0 : ℚ) ≤ mkRat 1 2 ∧ (mkRat 1 2 : ℚ) ≤ 1 ∧
    ((compute_max_children (.boolean (mkRat 1 2)) = 1 ↔
        ((mkRat 1 2 : ℚ) = 0 ∨ (mkRat 1 2 : ℚ) = 1)) ∧
      (0 < (mkRat 1 2 : ℚ) → (mkRat 1 2 : ℚ) < 1 →
        compute_max_children (.boolean (mkRat 1 2)) = 2)) :=
  ⟨by decide, by decide, claim_C6 (mkRat 1 2) (by decide) (by decide)⟩

/-- C7: for integer constraints with both bounds present and a weight
list, `compute_max_children` counts exactly the integers of the closed
range `[min, max]` carrying a nonzero weight; an absent bound yields the
effectively-infinite sentinel; the two concrete instances of the claim
evaluate to 1 and 2. -/
theorem claim_C7 :
    (∀ (lo hi : ℤ) (ws : List ℚ) (t : ℤ),
        compute_max_children (.integer (some lo) (some hi) (some ws) t) =
          ((Finset.Icc lo hi).filter
            (fun v => weightAt (some ws) (v - lo).toNat ≠ 0)).card) ∧
    (∀ mx ws t, compute_max_children (.integer none mx ws t) =
        MAX_CHILDREN_EFFECTIVELY_INFINITE) ∧
    (∀ mn ws t, compute_max_children (.integer (some mn) none ws t) =
        MAX_CHILDREN_EFFECTIVELY_INFINITE) ∧
    compute_max_children (.integer (some 1) (some 2) (some [0, 1]) 0) = 1 ∧
    compute_max_children
        (.integer (some 1) (some 4) (some [0, mkRat 1 2, 0, mkRat 1 2]) 0) = 2 := by
  refine ⟨?_, fun mx ws t => rfl, fun mn ws t => rfl, by decide, by decide⟩
  intro lo hi ws t
  have himg : Finset.Icc lo hi =
      (Finset.range (hi - lo + 1).toNat).image (fun i : Nat => lo + (i : ℤ)) := by
    ext v
    simp only [Finset.mem_Icc, Finset.mem_image, Finset.mem_range]
    constructor
    · intro hv
      exact ⟨(v - lo).toNat, by omega, by omega⟩
    · rintro ⟨i, hi', rfl⟩
      omega
  have hinj : Set.InjOn (fun i : Nat => lo + (i : ℤ))
      ↑((Finset.range (hi - lo + 1).toNat).filter
        (fun i : Nat => weightAt (some ws) ((lo + (i : ℤ)) - lo).toNat ≠ 0)) := by
    intro a _ b _ hab
    simp only at hab
    omega
  rw [himg, Finset.filter_image, Finset.card_image_of_injOn hinj]
  show (List.range (hi - lo + 1).toNat).countP _ = _
  rw [countP_range_eq_card_filter]
  congr 1
  apply Finset.filter_congr
  intro i _
  have : ((lo + (i : ℤ)) - lo).toNat = i := by omega
  simp [this, weightAt]

/-- C5: for string constraints, `compute_max_children` is the sum over
sizes `k ∈ [min, max]` of `c ^ k` where `c` is the cardinality of the
allowed-codepoint set, whenever that sum is below the fixed cap; it is
the effectively-infinite sentinel when the max size is absent or the sum
exceeds the cap. -/
theorem claim_C5 (mS : Nat) (MS : Option Nat) (iv : IntervalSet) :
    (∀ M, MS = some M →
      ((∑ k in Finset.Icc mS M, iv.size ^ k) < MAX_CHILDREN_EFFECTIVELY_INFINITE →
        compute_max_children (.string mS MS iv) =
          ∑ k in Finset.Icc mS M, iv.size ^ k) ∧
      (MAX_CHILDREN_EFFECTIVELY_INFINITE < ∑ k in Finset.Icc mS M, iv.size ^ k →
        compute_max_children (.string mS MS iv) =
          MAX_CHILDREN_EFFECTIVELY_INFINITE)) ∧
    (MS = none →
      compute_max_children (.string mS MS iv) =
        MAX_CHILDREN_EFFECTIVELY_INFINITE) := by
  constructor
  · rintro M rfl
    constructor
    · intro hlt
      rw [compute_max_children, if_neg, stringSizeSum_eq_sum_Icc]
      rw [stringSizeSum_eq_sum_Icc]
      omega
    · intro hgt
      rw [compute_max_children, if_pos]
      rw [stringSizeSum_eq_sum_Icc]
      omega
  · rintro rfl
    rfl

/-- C5 witness: fixed size 8 over a 3-codepoint interval set gives
`3 ^ 8` children. -/
theorem claim_C5_witness :
    (∑ k in Finset.Icc 8 8, (IntervalSet.mk [(97, 99)]).size ^ k) <
        MAX_CHILDREN_EFFECTIVELY_INFINITE ∧
    compute_max_children (.string 8 (some 8) ⟨[(97, 99)]⟩) =
      ∑ k in Finset.Icc 8 8, (IntervalSet.mk [(97, 99)]).size ^ k :=
  ⟨by decide, ((claim_C5 8 (some 8) ⟨[(97, 99)]⟩).1 8 rfl).1 (by decide)⟩

/-- C10: once a settings object's `__init__` has completed
(`_in_definition` false), assigning any attribute whose name does not
start with an underscore raises `AttributeError` and leaves the object
unchanged (the attribute store is untouched); likewise assigning any
non-underscore class attribute on the settings class itself raises
`AttributeError`, with `settings.default` rejected by its dedicated
branch. -/
theorem claim_C10 {α : Type} (s : SettingsObject α) (cls : SettingsClass α)
    (name : String) (v : α)
    (hdef : s.in_definition = false)
    (hpub : startsWithUnderscore name = false) :
    settingsSetattr s name v = .error .instanceImmutable ∧
    (∃ e, settingsMetaSetattr cls name v = .error e) ∧
    settingsMetaSetattr cls "default" v = .error .cannotAssignDefault := by
  refine ⟨?_, ?_, rfl⟩
  · rw [settingsSetattr, if_pos]
    rw [hdef, hpub]
    rfl
  · by_cases hd : name.data = "default".data
    · exact ⟨.cannotAssignDefault, by rw [settingsMetaSetattr, if_pos hd]⟩
    · exact ⟨.classImmutable, by
        rw [settingsMetaSetattr, if_neg hd, if_pos (by rw [hpub]; rfl)]⟩

/-- C10 witness: the public attribute `max_examples` on a constructed
settings object, and on the settings class. -/
theorem claim_C10_witness :
    (SettingsObject.mk false [] : SettingsObject Nat).in_definition = false ∧
    startsWithUnderscore "max_examples" = false ∧
    (settingsSetattr (SettingsObject.mk false []) "max_examples" (5 : Nat) =
        .error .instanceImmutable ∧
      (∃ e, settingsMetaSetattr (SettingsClass.mk []) "max_examples" (5 : Nat) =
          .error e) ∧
      settingsMetaSetattr (SettingsClass.mk []) "default" (5 : Nat) =
        .error .cannotAssignDefault) :=
  ⟨rfl, by decide,
    claim_C10 (SettingsObject.mk false []) (SettingsClass.mk [])
      "max_examples" 5 rfl (by decide)⟩

end Hypothesis

